import Mathlib

/-!
Verification of the poor-mans-vpn secure tunnel plane.

A shallow embedding of the tunnel core of `poor-mans-vpn` (files
`src/crypto.rs`, `src/lib.rs`, `src/error.rs`, `src/server.rs`) together with
proofs of the specification's claims about it.

Conventions of the embedding:
* Rust `u8` bytes are modelled as `Nat`; where the source performs byte
  arithmetic (`to_le_bytes`, array writes) the reduction `% 256` is explicit.
* Fallible Rust code returning `Result` is modelled with an explicit result
  type; a Rust `panic!`/`.expect(..)` is a separate `panicked` outcome.
* The cryptographic primitives of the `ring` crate (ChaCha20-Poly1305 AEAD,
  ECDH-P384 agreement, Ed25519 signatures) and the `bincode` codec are not
  part of this repository; they are modelled symbolically, keeping exactly
  the interface contracts the repository relies on (lengths of tags and
  nonces, authenticity of the AEAD tag over key/nonce/AAD/ciphertext,
  symmetry of the Diffie-Hellman agreement, unforgeability of signatures).
  Payload bytes are carried through unchanged by the symbolic cipher, which
  matches the length-preserving ChaCha20 stream cipher.
-/

namespace PMV

/-! ## Injective encoding of byte lists into `Nat` (used by symbolic crypto) -/

/-- An injective encoding of a list of naturals into one natural: each
element is recorded as the exponent of the 2-adic part of a
power-times-odd factorization.  Used only inside the symbolic models of the
`ring` primitives, to let a MAC tag or a signature determine the data it
covers. -/
def encL : List Nat → Nat
  | [] => 0
  | a :: t => 2 ^ (a + 1) * (2 * encL t + 1)

theorem encL_pos (a : Nat) (t : List Nat) : 0 < encL (a :: t) := by
  rw [encL]
  positivity

theorem pow_mul_odd_inj : ∀ (j k x y : Nat),
    2 ^ j * (2 * x + 1) = 2 ^ k * (2 * y + 1) → j = k ∧ x = y := by
  intro j
  induction j with
  | zero =>
    intro k x y h
    cases k with
    | zero => simp at h; omega
    | succ k' =>
      exfalso
      have e : 2 ^ (k' + 1) * (2 * y + 1) = 2 * (2 ^ k' * (2 * y + 1)) := by
        ring
      rw [pow_zero, one_mul, e] at h
      omega
  | succ j' ih =>
    intro k x y h
    cases k with
    | zero =>
      exfalso
      have e : 2 ^ (j' + 1) * (2 * x + 1) = 2 * (2 ^ j' * (2 * x + 1)) := by
        ring
      rw [pow_zero, one_mul, e] at h
      omega
    | succ k' =>
      have e1 : 2 ^ (j' + 1) * (2 * x + 1)
          = 2 * (2 ^ j' * (2 * x + 1)) := by ring
      have e2 : 2 ^ (k' + 1) * (2 * y + 1)
          = 2 * (2 ^ k' * (2 * y + 1)) := by ring
      rw [e1, e2] at h
      have h2 := Nat.eq_of_mul_eq_mul_left (by norm_num : 0 < 2) h
      obtain ⟨h3, h4⟩ := ih k' x y h2
      exact ⟨by omega, h4⟩

theorem encL_inj : ∀ {l1 l2 : List Nat}, encL l1 = encL l2 → l1 = l2
  | [], [], _ => rfl
  | [], b :: t2, h => absurd h.symm (Nat.ne_of_gt (encL_pos b t2))
  | a :: t1, [], h => absurd h (Nat.ne_of_gt (encL_pos a t1))
  | a :: t1, b :: t2, h => by
    rw [encL, encL] at h
    obtain ⟨h1, h2⟩ := pow_mul_odd_inj (a + 1) (b + 1) (encL t1) (encL t2) h
    rw [Nat.add_right_cancel h1, encL_inj h2]

/-! ## Little-endian byte strings (`u128::to_le_bytes` and friends) -/

/-- The first `k` bytes of the little-endian representation of `v`
(as `u128::to_le_bytes` produces, truncated to `k` bytes). -/
def leBytes : Nat → Nat → List Nat
  | 0, _ => []
  | k + 1, v => v % 256 :: leBytes k (v / 256)

/-- Reads a little-endian byte string back into a number. -/
def leVal (l : List Nat) : Nat :=
  l.foldr (fun b acc => b % 256 + 256 * acc) 0

theorem leBytes_length (k v : Nat) : (leBytes k v).length = k := by
  induction k generalizing v with
  | zero => rfl
  | succ k ih => simp [leBytes, ih]

theorem leVal_lt (l : List Nat) : leVal l < 256 ^ l.length := by
  induction l with
  | nil => simp [leVal]
  | cons b t ih =>
    simp only [leVal, List.foldr_cons, List.length_cons, pow_succ] at *
    have hb : b % 256 < 256 := Nat.mod_lt _ (by norm_num)
    omega

theorem leVal_leBytes (k v : Nat) (h : v < 256 ^ k) :
    leVal (leBytes k v) = v := by
  induction k generalizing v with
  | zero => simp at h; simp [h, leBytes, leVal]
  | succ k ih =>
    have hdiv : v / 256 < 256 ^ k := by
      rw [Nat.div_lt_iff_lt_mul (by norm_num)]
      calc v < 256 ^ (k + 1) := h
        _ = 256 ^ k * 256 := by ring
    have := ih (v / 256) hdiv
    simp only [leBytes, leVal, List.foldr_cons] at *
    rw [this]
    omega

/-! ## The `bincode` codec (external crate, modelled by its wire format) -/

/-- A serializer/deserializer pair, standing for a `bincode`-serializable Rust
type `T`.  `valid` delimits the values the running program can actually hold
(e.g. a `Vec<u8>` always has a length that fits in `u64`); the round-trip law
is stated on those. -/
structure Codec (α : Type) where
  valid : α → Prop
  enc : α → List Nat
  dec : List Nat → Option α
  dec_enc : ∀ a, valid a → dec (enc a) = some a

/-- `bincode` encoding of a `Vec<u8>`: an 8-byte little-endian `u64` length
prefix followed by the raw bytes. -/
def vecEnc (v : List Nat) : List Nat :=
  leBytes 8 v.length ++ v

/-- `bincode` decoding of a `Vec<u8>`: read the 8-byte length prefix, then
that many bytes; fail if the input is too short (trailing bytes are
tolerated, as by `bincode::deserialize`). -/
def vecDec (l : List Nat) : Option (List Nat) :=
  if l.length < 8 then none
  else
    let n := leVal (l.take 8)
    let rest := l.drop 8
    if n ≤ rest.length then some (rest.take n) else none

theorem vecDec_vecEnc (v : List Nat) (h : v.length < 2 ^ 64) :
    vecDec (vecEnc v) = some v := by
  have hlen : (leBytes 8 v.length).length = 8 := leBytes_length 8 v.length
  have htake : (vecEnc v).take 8 = leBytes 8 v.length := by
    rw [vecEnc, List.take_left' hlen]
  have hdrop : (vecEnc v).drop 8 = v := by
    rw [vecEnc, List.drop_left' hlen]
  have hval : leVal ((vecEnc v).take 8) = v.length := by
    rw [htake, leVal_leBytes]
    calc v.length < 2 ^ 64 := h
      _ = 256 ^ 8 := by norm_num
  have hlong : ¬ (vecEnc v).length < 8 := by
    simp [vecEnc, hlen]
  simp [vecDec, hlong, hval, hdrop]

/-- Any successfully decoded `Vec<u8>` has a length below `2^64` (its length
was read from an 8-byte `u64`). -/
theorem vecDec_length {l v : List Nat} (h : vecDec l = some v) :
    v.length < 2 ^ 64 := by
  unfold vecDec at h
  split at h
  · simp at h
  next h8 =>
    dsimp only at h
    split at h
    next hn =>
      rw [Option.some.injEq] at h
      have hv : v.length ≤ leVal (l.take 8) := by
        rw [← h, List.length_take]
        omega
      have hlt := leVal_lt (l.take 8)
      have hlen8 : (l.take 8).length = 8 := by
        rw [List.length_take]
        omega
      rw [hlen8] at hlt
      calc v.length ≤ leVal (l.take 8) := hv
        _ < 256 ^ 8 := hlt
        _ = 2 ^ 64 := by norm_num
    · simp at h

/-- The codec for `Vec<u8>` payloads (the type the tunnel actually seals). -/
def vecCodec : Codec (List Nat) where
  valid v := v.length < 2 ^ 64
  enc := vecEnc
  dec := vecDec
  dec_enc := vecDec_vecEnc

/-! ## `error.rs`: the `Error` enum -/

/-- The `Error` enum of `src/error.rs`, verbatim: `Setup`,
`InvalidPrivateKeyFormat`, `InvalidSignature`, `Unseal`, `BrokenMessage`,
`Io`.  (There is no `NonceExhausted` variant.)  An `std::io::Error` is
modelled by a numeric code. -/
inductive Error where
  | setup (msg : String)
  | invalidPrivateKeyFormat
  | invalidSignature
  | unseal
  | brokenMessage
  | ioErr (code : Nat)
deriving DecidableEq, Repr

/-- Outcome of a Rust computation that can return `Ok`, return `Err`, or
panic (`panic!` / `.expect(..)` / arithmetic overflow). -/
inductive PRes (α : Type) where
  | ok : α → PRes α
  | err : Error → PRes α
  | panicked : PRes α
deriving DecidableEq, Repr

/-! ## Symbolic ChaCha20-Poly1305 (`ring::aead`) -/

/-- The 16-byte Poly1305 tag, modelled symbolically: its first byte is an
injective fingerprint of the key, the nonce, the AAD and the ciphertext body,
so that tag verification succeeds exactly when all four match. -/
def mkTag (key : Nat) (nonce aad body : List Nat) : List Nat :=
  Nat.pair key (Nat.pair (encL nonce) (Nat.pair (encL aad) (encL body)))
    :: List.replicate 15 0

theorem mkTag_length (key : Nat) (nonce aad body : List Nat) :
    (mkTag key nonce aad body).length = 16 := by
  simp [mkTag]

theorem mkTag_inj {k1 k2 : Nat} {n1 n2 a1 a2 b1 b2 : List Nat}
    (h : mkTag k1 n1 a1 b1 = mkTag k2 n2 a2 b2) :
    k1 = k2 ∧ n1 = n2 ∧ a1 = a2 ∧ b1 = b2 := by
  simp only [mkTag, List.cons.injEq, Nat.pair_eq_pair, and_true] at h
  obtain ⟨hk, hn, ha, hb⟩ := h
  exact ⟨hk, encL_inj hn, encL_inj ha, encL_inj hb⟩

/-- `ring`'s `seal_in_place_append_tag`: the ciphertext body (same length as
the plaintext) followed by the 16-byte tag. -/
def sealRaw (key : Nat) (nonce aad msg : List Nat) : List Nat :=
  msg ++ mkTag key nonce aad msg

/-- `ring`'s `open_in_place`: check the trailing 16-byte tag against the key,
nonce and AAD; return the body on success, fail otherwise. -/
def openRaw (key : Nat) (nonce aad ct : List Nat) : Option (List Nat) :=
  if ct.length < 16 then none
  else
    let body := ct.take (ct.length - 16)
    let tag := ct.drop (ct.length - 16)
    if tag = mkTag key nonce aad body then some body else none

theorem openRaw_sealRaw (key : Nat) (nonce aad msg : List Nat) :
    openRaw key nonce aad (sealRaw key nonce aad msg) = some msg := by
  have hlen : (sealRaw key nonce aad msg).length = msg.length + 16 := by
    simp [sealRaw, mkTag_length]
  have hsub : (sealRaw key nonce aad msg).length - 16 = msg.length := by
    omega
  have htake : (sealRaw key nonce aad msg).take msg.length = msg := by
    rw [sealRaw, List.take_left]
  have hdrop : (sealRaw key nonce aad msg).drop msg.length
      = mkTag key nonce aad msg := by
    rw [sealRaw, List.drop_left]
  simp [openRaw, hlen, hsub, htake, hdrop]

/-- Opening with a wrong key, nonce or AAD fails: the tag binds all three. -/
theorem openRaw_sealRaw_mismatch (key key' : Nat)
    (nonce nonce' aad aad' msg : List Nat)
    (h : key' ≠ key ∨ nonce' ≠ nonce ∨ aad' ≠ aad) :
    openRaw key' nonce' aad' (sealRaw key nonce aad msg) = none := by
  have hlen : (sealRaw key nonce aad msg).length = msg.length + 16 := by
    simp [sealRaw, mkTag_length]
  have hsub : (sealRaw key nonce aad msg).length - 16 = msg.length := by
    omega
  have htake : (sealRaw key nonce aad msg).take msg.length = msg := by
    rw [sealRaw, List.take_left]
  have hdrop : (sealRaw key nonce aad msg).drop msg.length
      = mkTag key nonce aad msg := by
    rw [sealRaw, List.drop_left]
  have hne : mkTag key nonce aad msg ≠ mkTag key' nonce' aad' msg := by
    intro heq
    obtain ⟨hk, hn, ha, -⟩ := mkTag_inj heq
    tauto
  simp [openRaw, hlen, hsub, htake, hdrop, hne]

/-! ## `crypto.rs`: `NonceSeq` -/

/-- The nonce generator of `crypto.rs`: an 88-bit counter `next` plus a role
tag `id` (a `u8`, so reduced `% 256` at construction). -/
structure NonceSeq where
  id : Nat
  next : Nat
deriving DecidableEq, Repr

/-- `NonceSeq::new(id)`. -/
def NonceSeq.new (id : Nat) : NonceSeq :=
  { id := id % 256, next := 0 }

/-- `NonceSeq::advance`: fail once the counter reaches `2^88`
(`0x0000_0100_0000_0000_0000_0000_0000`); otherwise emit the 12-byte nonce
`value.to_le_bytes()[0..12]` with byte 11 overwritten by the role tag, and
increment the counter.  `none` models `Err(Unspecified)`. -/
def NonceSeq.advance (s : NonceSeq) : Option (List Nat × NonceSeq) :=
  if s.next ≥ 2 ^ 88 then none
  else some (leBytes 11 s.next ++ [s.id], { id := s.id, next := s.next + 1 })

/-- The state of a `NonceSeq` after `k` successful `advance` calls (`none` if
some call in between failed). -/
def NonceSeq.stateN : NonceSeq → Nat → Option NonceSeq
  | s, 0 => some s
  | s, k + 1 =>
    match s.advance with
    | none => none
    | some (_, s') => s'.stateN k

/-- The `k`-th nonce emitted from state `s` (`none` if `advance` fails on the
way). -/
def NonceSeq.emit (s : NonceSeq) (k : Nat) : Option (List Nat) :=
  match s.stateN k with
  | none => none
  | some s' => s'.advance.map Prod.fst

theorem NonceSeq.stateN_eq (k : Nat) :
    ∀ (s : NonceSeq), s.next + k ≤ 2 ^ 88 →
      s.stateN k = some { id := s.id, next := s.next + k } := by
  induction k with
  | zero => intro s _; simp [stateN]
  | succ k ih =>
    intro s h
    have hlt : ¬ s.next ≥ 2 ^ 88 := by omega
    rw [stateN, advance, if_neg hlt]
    dsimp only
    rw [ih { id := s.id, next := s.next + 1 } (by simp; omega)]
    simp [Nat.add_assoc, Nat.add_comm 1 k]

/-! ## `crypto.rs`: ECDH-P384 agreement and key derivation (symbolic) -/

/-- Symbolic ECDH (`ring::agreement`): an ephemeral private key is a natural;
its public half is identified with it, and the shared secret of
`agree_ephemeral(priv, pub)` is the unordered pair, which makes the agreement
symmetric — `agree a b = agree b a` — the one property `derive` relies on.
The PBKDF2-HMAC-SHA256 key derivation (empty salt, 100000 iterations) is an
injective post-processing step, modelled by a tagged pairing. -/
def derive (privkey pubkey : Nat) : Nat :=
  Nat.pair (min privkey pubkey) (max privkey pubkey)

theorem derive_comm (a b : Nat) : derive a b = derive b a := by
  simp [derive, Nat.min_comm, Nat.max_comm]

/-- `PrivSeed`: two ephemeral private keys. -/
structure PrivSeed where
  privkey1 : Nat
  privkey2 : Nat
deriving DecidableEq, Repr

/-- `PubSeed`: the two corresponding public keys. -/
structure PubSeed where
  pubkey1 : Nat
  pubkey2 : Nat
deriving DecidableEq, Repr

/-- The public half produced by `generate_seed_pair` for a given private
half (`compute_public_key` on each ephemeral key). -/
def pubSeedOf (ps : PrivSeed) : PubSeed :=
  { pubkey1 := ps.privkey1, pubkey2 := ps.privkey2 }

/-- The `bincode` codec for `PubSeed` (two opaque key blobs). -/
def pubSeedCodec : Codec PubSeed where
  valid _ := True
  enc ps := [ps.pubkey1, ps.pubkey2]
  dec l :=
    match l with
    | [a, b] => some { pubkey1 := a, pubkey2 := b }
    | _ => none
  dec_enc := by intro a _; rfl

/-! ## `crypto.rs`: `SessionKey` -/

/-- `SessionKey`: an opening AEAD key, a sealing AEAD key, and the nonce
sequence. -/
structure SessionKey where
  opening : Nat
  sealing : Nat
  nonce_seq : NonceSeq
deriving DecidableEq, Repr

/-- `SessionKey::client_derive`: sealing from the first keypair, opening from
the second, role tag 1. -/
def SessionKey.client_derive (privseed : PrivSeed) (pubseed : PubSeed) :
    SessionKey where
  sealing := derive privseed.privkey1 pubseed.pubkey1
  opening := derive privseed.privkey2 pubseed.pubkey2
  nonce_seq := NonceSeq.new 1

/-- `SessionKey::server_derive`: opening from the first keypair, sealing from
the second, role tag 2. -/
def SessionKey.server_derive (privseed : PrivSeed) (pubseed : PubSeed) :
    SessionKey where
  opening := derive privseed.privkey1 pubseed.pubkey1
  sealing := derive privseed.privkey2 pubseed.pubkey2
  nonce_seq := NonceSeq.new 2

/-- `SessionKey::seal`: advance the nonce (`.expect("nonce wear out")` — a
panic on exhaustion), serialize the payload, AEAD-seal it with
AAD `aad || nonce`, append the tag, then append the nonce.  The nonce-state
mutation of `&mut self` is returned as an updated key. -/
def SessionKey.seal {α : Type} (c : Codec α) (k : SessionKey)
    (aad : List Nat) (data : α) : PRes (List Nat × SessionKey) :=
  match k.nonce_seq.advance with
  | none => .panicked
  | some (nonce, ns) =>
    let bytes := c.enc data
    let sealed := sealRaw k.sealing nonce (aad ++ nonce) bytes
    .ok (sealed ++ nonce, { k with nonce_seq := ns })

/-- `SessionKey::unseal`: split the trailing 12 bytes off as the nonce
(`split_at_mut(len - 12)` — a panic if the buffer is shorter than 12 bytes),
AEAD-open the rest with AAD `aad || nonce` (failure → `BrokenMessage`), then
deserialize (failure → `BrokenMessage`). -/
def SessionKey.unseal {α : Type} (c : Codec α) (k : SessionKey)
    (aad ciphertext : List Nat) : PRes α :=
  if ciphertext.length < 12 then .panicked
  else
    let body := ciphertext.take (ciphertext.length - 12)
    let nonce := ciphertext.drop (ciphertext.length - 12)
    match openRaw k.opening nonce (aad ++ nonce) body with
    | none => .err .brokenMessage
    | some plaintext =>
      match c.dec plaintext with
      | none => .err .brokenMessage
      | some v => .ok v

/-! ## `crypto.rs`: Ed25519 (`StaticKeyPair` / `Signed<T>`, symbolic) -/

/-- The Ed25519 public key of a private key (injective, modelled by a tagged
pairing so that public keys do not collide with other symbolic objects). -/
def edPub (priv : Nat) : Nat :=
  Nat.pair 1 priv

/-- A symbolic Ed25519 signature: determines the signer's public key and the
signed bytes. -/
def edSign (priv : Nat) (data : List Nat) : Nat :=
  Nat.pair (edPub priv) (encL data)

/-- Symbolic Ed25519 verification
(`ring::signature::UnparsedPublicKey::verify`): succeeds exactly on
signatures made by the private counterpart of `pub` over `data`. -/
def edVerify (pubkey : Nat) (data : List Nat) (sig : Nat) : Bool :=
  sig == Nat.pair pubkey (encL data)

/-- `StaticKeyPair`: a long-term Ed25519 keypair, held by its private part. -/
structure StaticKeyPair where
  key : Nat
deriving DecidableEq, Repr

/-- `Signed<T>`: serialized payload bytes plus a signature (the type is a
phantom parameter, as in the source). -/
structure Signed (α : Type) where
  data : List Nat
  signature : Nat
deriving DecidableEq, Repr

/-- `StaticKeyPair::public_key`. -/
def StaticKeyPair.public_key (kp : StaticKeyPair) : Nat :=
  edPub kp.key

/-- `StaticKeyPair::sign`: serialize the value, sign the bytes. -/
def StaticKeyPair.sign {α : Type} (c : Codec α) (kp : StaticKeyPair)
    (val : α) : Signed α :=
  { data := c.enc val, signature := edSign kp.key (c.enc val) }

/-- `Signed::verify`: check the signature over the stored bytes against the
given public key; `InvalidSignature` on failure. -/
def Signed.verify {α : Type} (s : Signed α) (pubkey : Nat) :
    Except Error Unit :=
  if edVerify pubkey s.data s.signature then .ok () else .error .invalidSignature

/-- `Signed::open` (named `openMsg` here; `open` is reserved in Lean):
verify, then deserialize — the payload is deserialized only after a
successful verification, and a deserialization failure is `BrokenMessage`. -/
def Signed.openMsg {α : Type} (c : Codec α) (s : Signed α) (pubkey : Nat) :
    Except Error α :=
  match s.verify pubkey with
  | .error e => .error e
  | .ok _ =>
    match c.dec s.data with
    | none => .error .brokenMessage
    | some v => .ok v

/-! ## `lib.rs`: addresses, `SealedPacket`, `Message` -/

/-- An IPv4 address as its four octets (`std::net::Ipv4Addr`). -/
structure Ipv4 where
  o1 : Nat
  o2 : Nat
  o3 : Nat
  o4 : Nat
deriving DecidableEq, Repr

/-- `Ipv4Addr::octets`. -/
def Ipv4.octets (a : Ipv4) : List Nat :=
  [a.o1, a.o2, a.o3, a.o4]

theorem Ipv4.octets_inj {a b : Ipv4} (h : a.octets = b.octets) : a = b := by
  cases a; cases b
  simpa [Ipv4.octets] using h

/-- `SealedPacket`: cleartext inner source and destination plus the
ciphertext. -/
structure SealedPacket where
  source : Ipv4
  destination : Ipv4
  content : List Nat
deriving DecidableEq, Repr

/-- `SealedPacket::addresses_as_bytes`:
`[s[0], s[1], s[2], s[3], d[0], d[1], d[2], d[3]]`. -/
def SealedPacket.addresses_as_bytes (p : SealedPacket) : List Nat :=
  [p.source.o1, p.source.o2, p.source.o3, p.source.o4,
   p.destination.o1, p.destination.o2, p.destination.o3, p.destination.o4]

theorem addresses_as_bytes_eq_append (p : SealedPacket) :
    p.addresses_as_bytes = p.source.octets ++ p.destination.octets := by
  rfl

theorem addresses_as_bytes_inj {p q : SealedPacket}
    (h : p.addresses_as_bytes = q.addresses_as_bytes) :
    p.source = q.source ∧ p.destination = q.destination := by
  cases p with
  | mk ps pd pc =>
    cases q with
    | mk qs qd qc =>
      cases ps; cases pd; cases qs; cases qd
      simp only [SealedPacket.addresses_as_bytes, List.cons.injEq,
        and_true] at h
      obtain ⟨h1, h2, h3, h4, h5, h6, h7, h8⟩ := h
      subst h1; subst h2; subst h3; subst h4
      subst h5; subst h6; subst h7; subst h8
      exact ⟨rfl, rfl⟩

/-- The `Message` enum of `lib.rs`. -/
inductive Message where
  | hello (addr : Ipv4) (seed : Signed PubSeed)
  | helloReply (seed : Signed PubSeed)
  | heartBeat
  | packet (p : SealedPacket)
deriving DecidableEq, Repr

/-! ## Round-trip lemmas for `SessionKey::seal` / `SessionKey::unseal` -/

/-- If `k1.seal` succeeds then the receiving side with
`k2.opening = k1.sealing` recovers the payload under the same AAD prefix,
and fails with `BrokenMessage` under any other AAD prefix. -/
theorem unseal_of_seal {α : Type} (c : Codec α) (k1 k2 : SessionKey)
    (hk : k2.opening = k1.sealing) (aad aad' : List Nat) (m : α)
    (hv : c.valid m) (ct : List Nat) (k1' : SessionKey)
    (hs : k1.seal c aad m = .ok (ct, k1')) :
    k2.unseal c aad ct = .ok m ∧
    (aad' ≠ aad → k2.unseal c aad' ct = .err .brokenMessage) := by
  unfold SessionKey.seal at hs
  rcases hadv : k1.nonce_seq.advance with - | ⟨nonce, ns⟩
  · rw [hadv] at hs; exact absurd hs (by simp)
  rw [hadv] at hs
  dsimp only at hs
  rw [PRes.ok.injEq, Prod.mk.injEq] at hs
  obtain ⟨hct, -⟩ := hs
  have hnlen : nonce.length = 12 := by
    unfold NonceSeq.advance at hadv
    split at hadv
    · exact absurd hadv (by simp)
    · rw [Option.some.injEq, Prod.mk.injEq] at hadv
      obtain ⟨hn, -⟩ := hadv
      rw [← hn]
      simp [leBytes_length]
  have hbodylen : (sealRaw k1.sealing nonce (aad ++ nonce) (c.enc m)).length
      = (c.enc m).length + 16 := by
    simp [sealRaw, mkTag_length]
  have hctlen : ct.length = (c.enc m).length + 16 + 12 := by
    rw [← hct]
    simp [hbodylen, hnlen]
  have hsub : (sealRaw k1.sealing nonce (aad ++ nonce) (c.enc m)
      ++ nonce).length - 12
      = (sealRaw k1.sealing nonce (aad ++ nonce) (c.enc m)).length := by
    simp [hnlen]
  have htake : ct.take (ct.length - 12)
      = sealRaw k1.sealing nonce (aad ++ nonce) (c.enc m) := by
    rw [← hct, hsub, List.take_left]
  have hdrop : ct.drop (ct.length - 12) = nonce := by
    rw [← hct, hsub, List.drop_left]
  have hshort : ¬ ct.length < 12 := by omega
  constructor
  · unfold SessionKey.unseal
    rw [if_neg hshort]
    dsimp only
    rw [htake, hdrop, hk, openRaw_sealRaw]
    simp [c.dec_enc m hv]
  · intro hne
    unfold SessionKey.unseal
    rw [if_neg hshort]
    dsimp only
    rw [htake, hdrop, hk]
    have hfail : openRaw k1.sealing nonce (aad' ++ nonce)
        (sealRaw k1.sealing nonce (aad ++ nonce) (c.enc m)) = none := by
      apply openRaw_sealRaw_mismatch
      right; right
      intro heq
      have hlen : aad'.length = aad.length := by
        have := congrArg List.length heq
        simp at this
        omega
      exact hne (List.append_inj_left heq hlen)
    rw [hfail]

/-! ## `server.rs`: configuration, peer table, dispatch loop -/

/-- One `[[peers]]` entry of the server configuration: inner address and a
path to the peer's public-key file (paths are opaque identifiers here). -/
structure PeerConfig where
  address : Ipv4
  public_key : Nat
deriving DecidableEq, Repr

/-- A server-side peer entry: the outer socket address of the last Hello
(socket addresses are opaque identifiers) and the session key. -/
structure Peer where
  sock_addr : Nat
  session_key : SessionKey
deriving DecidableEq, Repr

/-- The peer table (`HashMap<Ipv4Addr, Peer>`), as an association list whose
keys are unique (insertion replaces).  -/
def PeerTable : Type := List (Ipv4 × Peer)

instance : DecidableEq PeerTable := by
  unfold PeerTable
  infer_instance

/-- `HashMap::get` / `get_mut`. -/
def tableGet (t : PeerTable) (k : Ipv4) : Option Peer :=
  (List.find? (fun p => decide (p.1 = k)) t).map Prod.snd

/-- `HashMap::insert`: bind `k` to `v`, replacing any previous binding. -/
def tableInsert (t : PeerTable) (k : Ipv4) (v : Peer) : PeerTable :=
  (k, v) :: List.filter (fun p => decide (p.1 ≠ k)) t

theorem tableGet_insert_same (t : PeerTable) (k : Ipv4) (v : Peer) :
    tableGet (tableInsert t k v) k = some v := by
  simp [tableGet, tableInsert, List.find?]

theorem tableGet_insert_other (t : PeerTable) (k k' : Ipv4) (v : Peer)
    (h : k' ≠ k) : tableGet (tableInsert t k v) k' = tableGet t k' := by
  unfold tableGet tableInsert
  have hhead : decide ((k, v).1 = k') = false := by simp [Ne.symm h]
  rw [List.find?, hhead]
  dsimp only
  rw [List.find?_filter]
  congr 2
  funext p
  by_cases hp : p.1 = k <;> by_cases hp' : p.1 = k' <;> simp_all

/-- Idealized model of `etherparse::Ipv4Header::from_slice`, restricted to
what the dispatch loop uses: on a buffer that starts with a well-formed IPv4
header (version nibble 4, IHL ≥ 5, long enough), return the source address
(bytes 12..16) and the destination address (bytes 16..20); fail otherwise. -/
def parseIpv4 (b : List Nat) : Option (Ipv4 × Ipv4) :=
  if h20 : 20 ≤ b.length then
    let b0 := b.get ⟨0, by omega⟩
    if b0 / 16 = 4 ∧ 5 ≤ b0 % 16 ∧ (b0 % 16) * 4 ≤ b.length then
      some
        ({ o1 := b.get ⟨12, by omega⟩, o2 := b.get ⟨13, by omega⟩,
           o3 := b.get ⟨14, by omega⟩, o4 := b.get ⟨15, by omega⟩ },
         { o1 := b.get ⟨16, by omega⟩, o2 := b.get ⟨17, by omega⟩,
           o3 := b.get ⟨18, by omega⟩, o4 := b.get ⟨19, by omega⟩ })
    else none
  else none

/-- Outcome of handling one `Message::Hello` in the UDP-inbound worker. -/
inductive HelloOutcome where
  /-- `std::fs::read(&conf.public_key)?` failed: the `?` propagates the
  `std::io::Error` out of the worker closure, terminating the worker. -/
  | ioFailure (code : Nat)
  /-- `continue`: the message is dropped; no table change, no reply. -/
  | dropNoReply
  /-- A session was established: the updated peer table, and the
  `HelloReply` sent to the outer source address. -/
  | established (peers : PeerTable) (reply : Signed PubSeed) (dst : Nat)
deriving DecidableEq

/-- The `Message::Hello` arm of the server's UDP-inbound loop
(`server.rs`).  `fs` models `std::fs::read` (public-key file contents, read
per Hello); `freshSeed` models the output of `generate_seed_pair`. -/
def helloStep (cfgPeers : List PeerConfig) (fs : Nat → Except Nat Nat)
    (staticKeyPair : StaticKeyPair) (freshSeed : PrivSeed)
    (peers : PeerTable) (addr : Ipv4) (seed : Signed PubSeed) (src : Nat) :
    HelloOutcome :=
  match cfgPeers.find? (fun conf => decide (conf.address = addr)) with
  | none => .dropNoReply
  | some conf =>
    match fs conf.public_key with
    | .error e => .ioFailure e
    | .ok pubkey =>
      match seed.openMsg pubSeedCodec pubkey with
      | .error _ => .dropNoReply
      | .ok client_seed =>
        let session_key := SessionKey.server_derive freshSeed client_seed
        let peers' := tableInsert peers addr
          { sock_addr := src, session_key := session_key }
        let signed_seed := staticKeyPair.sign pubSeedCodec (pubSeedOf freshSeed)
        .established peers' signed_seed src

/-- Outcome of handling one `Message::Packet` in the UDP-inbound worker. -/
inductive PacketOutcome where
  /-- `continue`: the packet is dropped, nothing is sent. -/
  | dropped
  /-- `iface.send(&packet)`: the plaintext is written to the TUN device
  (the peer table is unchanged). -/
  | tun (plaintext : List Nat)
  /-- `sock.send_to(Message::Packet(..), ..)`: a re-sealed packet is sent to
  the destination peer's outer address; the table holds that peer's advanced
  nonce state. -/
  | forward (p : SealedPacket) (dst : Nat) (peers : PeerTable)
  /-- A panic (`split_at_mut` underflow in `unseal`, or
  `.expect("Failed to encrypt")`). -/
  | panicked
deriving DecidableEq

/-- The `Message::Packet` arm of the server's UDP-inbound loop
(`server.rs`). -/
def packetStep (serverAddr : Ipv4) (peers : PeerTable)
    (sealed : SealedPacket) : PacketOutcome :=
  match tableGet peers sealed.source with
  | none => .dropped
  | some peerA =>
    match peerA.session_key.unseal vecCodec
        sealed.addresses_as_bytes sealed.content with
    | .panicked => .panicked
    | .err _ => .dropped
    | .ok packet =>
      match parseIpv4 packet with
      | none => .dropped
      | some (source, destination) =>
        if destination = serverAddr then .tun packet
        else
          match tableGet peers destination with
          | none => .dropped
          | some peerB =>
            let sealed0 : SealedPacket :=
              { source := source, destination := destination, content := [] }
            let aad := sealed0.addresses_as_bytes
            match peerB.session_key.seal vecCodec aad packet with
            | .panicked => .panicked
            | .err _ => .panicked
            | .ok (ct, key') =>
              .forward
                { source := source, destination := destination, content := ct }
                peerB.sock_addr
                (tableInsert peers destination { peerB with session_key := key' })

/-! ## Helper lemmas shared by the claim theorems -/

theorem pow256_11 : (256 : Nat) ^ 11 = 2 ^ 88 := by norm_num

/-- A payload successfully recovered by `unseal` with the `Vec<u8>` codec
fits in a `u64` length (it was decoded through the 8-byte length prefix). -/
theorem unseal_ok_valid {k : SessionKey} {aad ct v : List Nat}
    (h : k.unseal vecCodec aad ct = .ok v) : v.length < 2 ^ 64 := by
  unfold SessionKey.unseal at h
  split at h
  · exact absurd h (by simp)
  · dsimp only at h
    split at h
    · exact absurd h (by simp)
    next pt hopen =>
      split at h
      · exact absurd h (by simp)
      next v' hdec =>
        rw [PRes.ok.injEq] at h
        subst h
        exact vecDec_length hdec

/-! ## The claims -/

/-- C3: from a freshly constructed `NonceSeq`, the `k`-th successful
`advance` emits the 12-byte nonce whose bytes 0..=10 are the little-endian
counter value `k` (counting from 0) and whose byte 11 is the role tag fixed
at construction; emitted counter values are strictly increasing; `advance`
fails exactly when the counter has reached `2^88` and never wraps. -/
theorem C3_nonce_monotone (id k j : Nat) (hk : k < 2 ^ 88) (hj : j < k) :
    (NonceSeq.new id).emit k = some (leBytes 11 k ++ [id % 256]) ∧
    (leBytes 11 k ++ [id % 256]).length = 12 ∧
    (leBytes 11 k ++ [id % 256]).drop 11 = [id % 256] ∧
    leVal (leBytes 11 j) < leVal (leBytes 11 k) ∧
    (∀ s : NonceSeq, s.advance = none ↔ 2 ^ 88 ≤ s.next) ∧
    (∀ (s s' : NonceSeq) (n : List Nat), s.advance = some (n, s') →
      s'.id = s.id ∧ s'.next = s.next + 1) ∧
    (NonceSeq.new id).emit (2 ^ 88) = none := by
  have hlen11 : ∀ v, (leBytes 11 v).length = 11 := fun v => leBytes_length 11 v
  have hstate : ∀ n, n ≤ 2 ^ 88 →
      (NonceSeq.new id).stateN n = some { id := id % 256, next := n } := by
    intro n hn
    have := NonceSeq.stateN_eq n (NonceSeq.new id) (by simpa [NonceSeq.new])
    simpa [NonceSeq.new] using this
  refine ⟨?_, ?_, ?_, ?_, ?_, ?_, ?_⟩
  · have hadv : ({ id := id % 256, next := k } : NonceSeq).advance
        = some (leBytes 11 k ++ [id % 256],
            { id := id % 256, next := k + 1 }) := by
      unfold NonceSeq.advance
      rw [if_neg (by simpa using hk)]
    rw [NonceSeq.emit, hstate k (le_of_lt hk)]
    dsimp only
    rw [hadv]
    rfl
  · simp [hlen11]
  · exact List.drop_left' (hlen11 k)
  · rw [leVal_leBytes 11 j (by rw [pow256_11]; omega),
      leVal_leBytes 11 k (by rw [pow256_11]; omega)]
    exact hj
  · intro s
    constructor
    · intro h
      by_contra hc
      unfold NonceSeq.advance at h
      rw [if_neg (by omega)] at h
      exact absurd h (by simp)
    · intro h
      unfold NonceSeq.advance
      rw [if_pos (by omega)]
  · intro s s' n h
    unfold NonceSeq.advance at h
    split at h
    · exact absurd h (by simp)
    · rw [Option.some.injEq, Prod.mk.injEq] at h
      obtain ⟨-, h2⟩ := h
      rw [← h2]
      exact ⟨rfl, rfl⟩
  · have hadv : ({ id := id % 256, next := 2 ^ 88 } : NonceSeq).advance
        = none := by
      unfold NonceSeq.advance
      rw [if_pos (by simp)]
    rw [NonceSeq.emit, hstate (2 ^ 88) (le_refl _)]
    dsimp only
    rw [hadv]
    rfl

/-- Witness for C3 at role tag 1, emission 5, earlier emission 2. -/
theorem C3_nonce_monotone_witness :
    (5 : Nat) < 2 ^ 88 ∧ (2 : Nat) < 5 ∧
    ((NonceSeq.new 1).emit 5 = some (leBytes 11 5 ++ [1 % 256]) ∧
      (leBytes 11 5 ++ [1 % 256]).length = 12 ∧
      (leBytes 11 5 ++ [1 % 256]).drop 11 = [1 % 256] ∧
      leVal (leBytes 11 2) < leVal (leBytes 11 5) ∧
      (∀ s : NonceSeq, s.advance = none ↔ 2 ^ 88 ≤ s.next) ∧
      (∀ (s s' : NonceSeq) (n : List Nat), s.advance = some (n, s') →
        s'.id = s.id ∧ s'.next = s.next + 1) ∧
      (NonceSeq.new 1).emit (2 ^ 88) = none) :=
  ⟨by norm_num, by norm_num, C3_nonce_monotone 1 5 2 (by norm_num) (by norm_num)⟩

/-- C4 fails on the code: at nonce exhaustion `SessionKey::seal` does not
return a defined `NonceExhausted` error — the `Error` enum has no such
variant, and `seal` unwraps `advance()` with `.expect("nonce wear out")`,
i.e. it panics.  Concretely, sealing with an exhausted counter is a panic,
not an `Err`. -/
theorem C4_counterexample :
    SessionKey.seal vecCodec
      { opening := 0, sealing := 0,
        nonce_seq := { id := 2, next := 2 ^ 88 } } [] []
      = .panicked := by
  decide

/-- C4 (amended): when the 88-bit nonce counter of a `SessionKey` would
overflow, `NonceSeq::advance` returns `Err(Unspecified)` and `seal` panics
via `.expect("nonce wear out")`; the `Error` enum defines no
`NonceExhausted` variant and `seal` never surfaces the exhaustion as a
`Result` error. -/
theorem C4_seal_panics_on_exhaustion {α : Type} (c : Codec α)
    (k : SessionKey) (aad : List Nat) (d : α)
    (h : 2 ^ 88 ≤ k.nonce_seq.next) :
    k.seal c aad d = .panicked ∧ k.nonce_seq.advance = none := by
  have hadv : k.nonce_seq.advance = none := by
    unfold NonceSeq.advance
    rw [if_pos (by omega)]
  refine ⟨?_, hadv⟩
  unfold SessionKey.seal
  rw [hadv]

/-- Witness for the amended C4 at a concrete exhausted key. -/
theorem C4_seal_panics_on_exhaustion_witness :
    (2 : Nat) ^ 88 ≤
      (({ opening := 0, sealing := 0,
          nonce_seq := { id := 1, next := 2 ^ 88 + 3 } } : SessionKey)
        ).nonce_seq.next ∧
    (SessionKey.seal vecCodec
        { opening := 0, sealing := 0,
          nonce_seq := { id := 1, next := 2 ^ 88 + 3 } } [0] [1]
      = .panicked ∧
      NonceSeq.advance { id := 1, next := 2 ^ 88 + 3 } = none) :=
  ⟨by norm_num,
    C4_seal_panics_on_exhaustion vecCodec
      { opening := 0, sealing := 0,
        nonce_seq := { id := 1, next := 2 ^ 88 + 3 } } [0] [1] (by norm_num)⟩

/-- C7: `open(sign(m), pub)` returns `m` for the signer's public key;
for every other public key it fails with `InvalidSignature`; and whenever
verification fails, `open` returns `InvalidSignature` without the payload
ever being deserialized (no `BrokenMessage` can be surfaced). -/
theorem C7_sign_open {α : Type} (c : Codec α) (kp : StaticKeyPair) (m : α)
    (pub' : Nat) (hv : c.valid m) (hne : pub' ≠ kp.public_key) :
    (kp.sign c m).openMsg c kp.public_key = .ok m ∧
    (kp.sign c m).openMsg c pub' = .error .invalidSignature ∧
    (∀ s : Signed α, s.verify pub' = .error .invalidSignature →
      s.openMsg c pub' = .error .invalidSignature) := by
  refine ⟨?_, ?_, ?_⟩
  · have hver : ((kp.sign c m).verify kp.public_key : Except Error Unit)
        = .ok () := by
      simp [Signed.verify, edVerify, StaticKeyPair.sign, edSign,
        StaticKeyPair.public_key]
    unfold Signed.openMsg
    rw [hver]
    dsimp only [StaticKeyPair.sign]
    rw [c.dec_enc m hv]
  · have hbad : edVerify pub' (StaticKeyPair.sign c kp m).data
        (StaticKeyPair.sign c kp m).signature = false := by
      simp only [edVerify, StaticKeyPair.sign, edSign, beq_eq_false_iff_ne,
        ne_eq, Nat.pair_eq_pair, not_and]
      intro hp
      exact absurd hp.symm (by simpa [StaticKeyPair.public_key] using hne)
    have hver : ((kp.sign c m).verify pub' : Except Error Unit)
        = .error .invalidSignature := by
      simp [Signed.verify, hbad]
    unfold Signed.openMsg
    rw [hver]
  · intro s hver
    unfold Signed.openMsg
    rw [hver]

/-- Witness for C7 at a concrete keypair, payload and wrong key. -/
theorem C7_sign_open_witness :
    vecCodec.valid [7] ∧ (0 : Nat) ≠ (StaticKeyPair.mk 5).public_key ∧
    (((StaticKeyPair.mk 5).sign vecCodec [7]).openMsg vecCodec
        (StaticKeyPair.mk 5).public_key = .ok [7] ∧
      ((StaticKeyPair.mk 5).sign vecCodec [7]).openMsg vecCodec 0
        = .error .invalidSignature ∧
      (∀ s : Signed (List Nat), s.verify 0 = .error .invalidSignature →
        s.openMsg vecCodec 0 = .error .invalidSignature)) :=
  ⟨by norm_num [vecCodec], by decide,
    C7_sign_open vecCodec (StaticKeyPair.mk 5) [7] 0 (by norm_num [vecCodec])
      (by decide)⟩

/-- C8: a successful `seal` returns
`ciphertext-body ++ 16-byte tag ++ 12-byte nonce`: the body is the
(length-preserving) encryption of the serialized payload, the total length
is the serialized length plus 28, and the trailing 12 bytes are exactly the
nonce used for sealing. -/
theorem C8_seal_layout {α : Type} (c : Codec α) (k : SessionKey)
    (aad : List Nat) (m : α) (ct : List Nat) (k' : SessionKey)
    (hs : k.seal c aad m = .ok (ct, k')) :
    ct = c.enc m
        ++ mkTag k.sealing (leBytes 11 k.nonce_seq.next ++ [k.nonce_seq.id])
            (aad ++ (leBytes 11 k.nonce_seq.next ++ [k.nonce_seq.id]))
            (c.enc m)
        ++ (leBytes 11 k.nonce_seq.next ++ [k.nonce_seq.id]) ∧
    ct.length = (c.enc m).length + 28 ∧
    ct.drop (ct.length - 12)
      = leBytes 11 k.nonce_seq.next ++ [k.nonce_seq.id] ∧
    (leBytes 11 k.nonce_seq.next ++ [k.nonce_seq.id]).length = 12 ∧
    (mkTag k.sealing (leBytes 11 k.nonce_seq.next ++ [k.nonce_seq.id])
        (aad ++ (leBytes 11 k.nonce_seq.next ++ [k.nonce_seq.id]))
        (c.enc m)).length = 16 := by
  unfold SessionKey.seal at hs
  rcases hadv : k.nonce_seq.advance with - | ⟨nonce, ns⟩
  · rw [hadv] at hs; exact absurd hs (by simp)
  rw [hadv] at hs
  dsimp only at hs
  rw [PRes.ok.injEq, Prod.mk.injEq] at hs
  obtain ⟨hct, -⟩ := hs
  rw [NonceSeq.advance] at hadv
  split at hadv
  · exact absurd hadv (by simp)
  · rw [Option.some.injEq, Prod.mk.injEq] at hadv
    obtain ⟨hn, -⟩ := hadv
    subst hn
    have hnlen : (leBytes 11 k.nonce_seq.next ++ [k.nonce_seq.id]).length
        = 12 := by simp [leBytes_length]
    have htag : (mkTag k.sealing
        (leBytes 11 k.nonce_seq.next ++ [k.nonce_seq.id])
        (aad ++ (leBytes 11 k.nonce_seq.next ++ [k.nonce_seq.id]))
        (c.enc m)).length = 16 := mkTag_length _ _ _ _
    refine ⟨?_, ?_, ?_, hnlen, htag⟩
    · rw [← hct, sealRaw, List.append_assoc]
    · rw [← hct]
      simp [sealRaw, mkTag_length, hnlen]
    · have hctlen : ct.length = (c.enc m).length + 28 := by
        rw [← hct]
        simp [sealRaw, mkTag_length, hnlen]
      have hsub : ct.length - 12
          = (sealRaw k.sealing (leBytes 11 k.nonce_seq.next ++ [k.nonce_seq.id])
              (aad ++ (leBytes 11 k.nonce_seq.next ++ [k.nonce_seq.id]))
              (c.enc m)).length := by
        rw [hctlen]
        simp [sealRaw, mkTag_length]
      rw [← hct] at hsub ⊢
      rw [hsub, List.drop_left]

/-- Witness for C8 at a fresh client key and payload `[9]`. -/
theorem C8_seal_layout_witness :
    (SessionKey.client_derive ⟨0, 1⟩ (pubSeedOf ⟨2, 3⟩)).seal vecCodec
        [1, 2] [9]
      = .ok (vecEnc [9]
          ++ mkTag (derive 0 2) (leBytes 11 0 ++ [1])
              ([1, 2] ++ (leBytes 11 0 ++ [1])) (vecEnc [9])
          ++ (leBytes 11 0 ++ [1]),
          ({ opening := derive 1 3, sealing := derive 0 2,
             nonce_seq := { id := 1, next := 1 } } : SessionKey)) ∧
    (vecEnc [9]
        ++ mkTag (derive 0 2) (leBytes 11 0 ++ [1])
            ([1, 2] ++ (leBytes 11 0 ++ [1])) (vecEnc [9])
        ++ (leBytes 11 0 ++ [1])).length = (vecEnc [9]).length + 28 := by
  have hs : (SessionKey.client_derive ⟨0, 1⟩ (pubSeedOf ⟨2, 3⟩)).seal vecCodec
      [1, 2] [9]
      = .ok (vecEnc [9]
          ++ mkTag (derive 0 2) (leBytes 11 0 ++ [1])
              ([1, 2] ++ (leBytes 11 0 ++ [1])) (vecEnc [9])
          ++ (leBytes 11 0 ++ [1]),
          ({ opening := derive 1 3, sealing := derive 0 2,
             nonce_seq := { id := 1, next := 1 } } : SessionKey)) := by
    decide
  exact ⟨hs, (C8_seal_layout vecCodec
    (SessionKey.client_derive ⟨0, 1⟩ (pubSeedOf ⟨2, 3⟩)) [1, 2] [9] _ _
    hs).2.1⟩

/-- C9: `SessionKey::unseal` performs no length check before splitting off
the trailing 12-byte nonce (`split_at_mut(len - 12)`), so it is total —
returning `Ok` or `Err(BrokenMessage)` — exactly under the precondition that
the (wire-supplied) ciphertext is at least 12 bytes; on a shorter buffer it
panics, and in the server's packet arm that panic is reached whenever the
sender session exists. -/
theorem C9_unseal_totality {α : Type} (c : Codec α) (k : SessionKey)
    (aad ct : List Nat) (serverAddr : Ipv4) (peers : PeerTable)
    (sealed : SealedPacket) (peerA : Peer)
    (hga : tableGet peers sealed.source = some peerA) :
    (ct.length < 12 → k.unseal c aad ct = .panicked) ∧
    (12 ≤ ct.length →
      (∃ v, k.unseal c aad ct = .ok v) ∨
        k.unseal c aad ct = .err .brokenMessage) ∧
    (sealed.content.length < 12 →
      packetStep serverAddr peers sealed = .panicked) := by
  have hpanic : ∀ (k' : SessionKey) (a b : List Nat), b.length < 12 →
      k'.unseal c a b = .panicked := by
    intro k' a b hb
    rw [SessionKey.unseal, if_pos hb]
  have hpanicVec : ∀ (k' : SessionKey) (a b : List Nat), b.length < 12 →
      k'.unseal vecCodec a b = .panicked := by
    intro k' a b hb
    rw [SessionKey.unseal, if_pos hb]
  refine ⟨hpanic k aad ct, ?_, ?_⟩
  · intro hge
    rw [SessionKey.unseal, if_neg (by omega)]
    dsimp only
    rcases ho : openRaw k.opening (ct.drop (ct.length - 12))
        (aad ++ ct.drop (ct.length - 12)) (ct.take (ct.length - 12)) with
      - | pt
    · right
      rfl
    · dsimp only
      rcases hdec : c.dec pt with - | v
      · right
        rfl
      · left
        exact ⟨v, rfl⟩
  · intro hlt
    unfold packetStep
    rw [hga]
    dsimp only
    rw [hpanicVec peerA.session_key sealed.addresses_as_bytes sealed.content
      hlt]

/-- Witness for C9: a 5-byte ciphertext panics; a 12-byte one does not. -/
theorem C9_unseal_totality_witness :
    ((([0, 1, 2, 3, 4] : List Nat).length < 12 →
        SessionKey.unseal vecCodec
          { opening := 0, sealing := 0, nonce_seq := NonceSeq.new 2 }
          [] [0, 1, 2, 3, 4] = .panicked) ∧
      (12 ≤ ([0, 1, 2, 3, 4] : List Nat).length →
        (∃ v, SessionKey.unseal vecCodec
            { opening := 0, sealing := 0, nonce_seq := NonceSeq.new 2 }
            [] [0, 1, 2, 3, 4] = .ok v) ∨
          SessionKey.unseal vecCodec
            { opening := 0, sealing := 0, nonce_seq := NonceSeq.new 2 }
            [] [0, 1, 2, 3, 4] = .err .brokenMessage) ∧
      ((SealedPacket.mk ⟨1, 2, 3, 4⟩ ⟨5, 6, 7, 8⟩ [9]).content.length < 12 →
        packetStep ⟨9, 9, 9, 9⟩
          [(⟨1, 2, 3, 4⟩,
            { sock_addr := 0,
              session_key :=
                { opening := 0, sealing := 0, nonce_seq := NonceSeq.new 2 } })]
          (SealedPacket.mk ⟨1, 2, 3, 4⟩ ⟨5, 6, 7, 8⟩ [9]) = .panicked)) :=
  C9_unseal_totality vecCodec
    { opening := 0, sealing := 0, nonce_seq := NonceSeq.new 2 }
    [] [0, 1, 2, 3, 4] ⟨9, 9, 9, 9⟩
    [(⟨1, 2, 3, 4⟩,
      { sock_addr := 0,
        session_key :=
          { opening := 0, sealing := 0, nonce_seq := NonceSeq.new 2 } })]
    (SealedPacket.mk ⟨1, 2, 3, 4⟩ ⟨5, 6, 7, 8⟩ [9])
    { sock_addr := 0,
      session_key :=
        { opening := 0, sealing := 0, nonce_seq := NonceSeq.new 2 } }
    (by decide)

/-- C1: for client-role and server-role `SessionKey`s derived from the same
seed exchange, sealing on either side round-trips through the other side's
`unseal` under the same AAD, and `unseal` under any different AAD fails;
moreover both freshly derived keys can always seal. -/
theorem C1_session_roundtrip {α : Type} (c : Codec α) (pc ps : PrivSeed)
    (aad aad' : List Nat) (m : α) (hv : c.valid m) (hne : aad' ≠ aad) :
    (∀ ct k', (SessionKey.client_derive pc (pubSeedOf ps)).seal c aad m
        = .ok (ct, k') →
      (SessionKey.server_derive ps (pubSeedOf pc)).unseal c aad ct = .ok m ∧
      (SessionKey.server_derive ps (pubSeedOf pc)).unseal c aad' ct
        = .err .brokenMessage) ∧
    (∀ ct k', (SessionKey.server_derive ps (pubSeedOf pc)).seal c aad m
        = .ok (ct, k') →
      (SessionKey.client_derive pc (pubSeedOf ps)).unseal c aad ct = .ok m ∧
      (SessionKey.client_derive pc (pubSeedOf ps)).unseal c aad' ct
        = .err .brokenMessage) ∧
    (∃ ct k', (SessionKey.client_derive pc (pubSeedOf ps)).seal c aad m
        = .ok (ct, k')) ∧
    (∃ ct k', (SessionKey.server_derive ps (pubSeedOf pc)).seal c aad m
        = .ok (ct, k')) := by
  have hk1 : (SessionKey.server_derive ps (pubSeedOf pc)).opening
      = (SessionKey.client_derive pc (pubSeedOf ps)).sealing :=
    derive_comm ps.privkey1 pc.privkey1
  have hk2 : (SessionKey.client_derive pc (pubSeedOf ps)).opening
      = (SessionKey.server_derive ps (pubSeedOf pc)).sealing :=
    derive_comm pc.privkey2 ps.privkey2
  refine ⟨?_, ?_, ?_, ?_⟩
  · intro ct k' hs
    obtain ⟨h1, h2⟩ := unseal_of_seal c _ _ hk1 aad aad' m hv ct k' hs
    exact ⟨h1, h2 hne⟩
  · intro ct k' hs
    obtain ⟨h1, h2⟩ := unseal_of_seal c _ _ hk2 aad aad' m hv ct k' hs
    exact ⟨h1, h2 hne⟩
  · exact ⟨_, _, rfl⟩
  · exact ⟨_, _, rfl⟩

/-- Witness for C1 at concrete seeds, payload `[5]`, AADs `[1]` / `[2]`. -/
theorem C1_session_roundtrip_witness :
    vecCodec.valid [5] ∧ ([2] : List Nat) ≠ [1] ∧
    ((∀ ct k',
        (SessionKey.client_derive ⟨0, 1⟩ (pubSeedOf ⟨2, 3⟩)).seal vecCodec
          [1] [5] = .ok (ct, k') →
        (SessionKey.server_derive ⟨2, 3⟩ (pubSeedOf ⟨0, 1⟩)).unseal vecCodec
          [1] ct = .ok [5] ∧
        (SessionKey.server_derive ⟨2, 3⟩ (pubSeedOf ⟨0, 1⟩)).unseal vecCodec
          [2] ct = .err .brokenMessage) ∧
      (∀ ct k',
        (SessionKey.server_derive ⟨2, 3⟩ (pubSeedOf ⟨0, 1⟩)).seal vecCodec
          [1] [5] = .ok (ct, k') →
        (SessionKey.client_derive ⟨0, 1⟩ (pubSeedOf ⟨2, 3⟩)).unseal vecCodec
          [1] ct = .ok [5] ∧
        (SessionKey.client_derive ⟨0, 1⟩ (pubSeedOf ⟨2, 3⟩)).unseal vecCodec
          [2] ct = .err .brokenMessage) ∧
      (∃ ct k',
        (SessionKey.client_derive ⟨0, 1⟩ (pubSeedOf ⟨2, 3⟩)).seal vecCodec
          [1] [5] = .ok (ct, k')) ∧
      (∃ ct k',
        (SessionKey.server_derive ⟨2, 3⟩ (pubSeedOf ⟨0, 1⟩)).seal vecCodec
          [1] [5] = .ok (ct, k'))) :=
  ⟨by norm_num [vecCodec], by decide,
    C1_session_roundtrip vecCodec ⟨0, 1⟩ ⟨2, 3⟩ [1] [2] [5]
      (by norm_num [vecCodec]) (by decide)⟩

/-- C2: the AAD prefix used for a `SealedPacket` is exactly the 8 bytes
(source octets || destination octets) produced by `addresses_as_bytes`, the
12-byte nonce being appended internally; consequently a packet sealed for
one (source, destination) pair fails to unseal under the addresses of any
packet whose source or destination differs. -/
theorem C2_aad_binds_addresses {α : Type} (c : Codec α) (k1 k2 : SessionKey)
    (hk : k2.opening = k1.sealing) (sp sp' : SealedPacket) (m : α)
    (hv : c.valid m) (ct : List Nat) (k1' : SessionKey)
    (hs : k1.seal c sp.addresses_as_bytes m = .ok (ct, k1'))
    (hne : sp'.source ≠ sp.source ∨ sp'.destination ≠ sp.destination) :
    sp.addresses_as_bytes = sp.source.octets ++ sp.destination.octets ∧
    sp.addresses_as_bytes.length = 8 ∧
    (∃ nonce, nonce.length = 12 ∧
      ct = sealRaw k1.sealing nonce (sp.addresses_as_bytes ++ nonce)
            (c.enc m) ++ nonce) ∧
    k2.unseal c sp.addresses_as_bytes ct = .ok m ∧
    k2.unseal c sp'.addresses_as_bytes ct = .err .brokenMessage := by
  have hne8 : sp'.addresses_as_bytes ≠ sp.addresses_as_bytes := by
    intro heq
    obtain ⟨h1, h2⟩ := addresses_as_bytes_inj heq
    tauto
  obtain ⟨h1, h2⟩ := unseal_of_seal c k1 k2 hk sp.addresses_as_bytes
    sp'.addresses_as_bytes m hv ct k1' hs
  refine ⟨rfl, rfl, ?_, h1, h2 hne8⟩
  · unfold SessionKey.seal at hs
    rcases hadv : k1.nonce_seq.advance with - | ⟨nonce, ns⟩
    · rw [hadv] at hs; exact absurd hs (by simp)
    rw [hadv] at hs
    dsimp only at hs
    rw [PRes.ok.injEq, Prod.mk.injEq] at hs
    obtain ⟨hct, -⟩ := hs
    have hnlen : nonce.length = 12 := by
      unfold NonceSeq.advance at hadv
      split at hadv
      · exact absurd hadv (by simp)
      · rw [Option.some.injEq, Prod.mk.injEq] at hadv
        obtain ⟨hn, -⟩ := hadv
        rw [← hn]
        simp [leBytes_length]
    exact ⟨nonce, hnlen, hct.symm⟩

/-- Witness for C2 at a concrete matching key pair and address change. -/
theorem C2_aad_binds_addresses_witness :
    ((SessionKey.server_derive ⟨2, 3⟩ (pubSeedOf ⟨0, 1⟩)).opening
      = (SessionKey.client_derive ⟨0, 1⟩ (pubSeedOf ⟨2, 3⟩)).sealing) ∧
    ((SessionKey.client_derive ⟨0, 1⟩ (pubSeedOf ⟨2, 3⟩)).seal vecCodec
        (SealedPacket.mk ⟨10, 20, 30, 2⟩ ⟨10, 20, 30, 3⟩ []
          ).addresses_as_bytes [5]
      = .ok (vecEnc [5]
          ++ mkTag (derive 0 2) (leBytes 11 0 ++ [1])
              ([10, 20, 30, 2, 10, 20, 30, 3] ++ (leBytes 11 0 ++ [1]))
              (vecEnc [5])
          ++ (leBytes 11 0 ++ [1]),
          ({ opening := derive 1 3, sealing := derive 0 2,
             nonce_seq := { id := 1, next := 1 } } : SessionKey))) ∧
    ((SessionKey.server_derive ⟨2, 3⟩ (pubSeedOf ⟨0, 1⟩)).unseal vecCodec
        (SealedPacket.mk ⟨10, 20, 30, 2⟩ ⟨10, 20, 30, 3⟩ []
          ).addresses_as_bytes
        (vecEnc [5]
          ++ mkTag (derive 0 2) (leBytes 11 0 ++ [1])
              ([10, 20, 30, 2, 10, 20, 30, 3] ++ (leBytes 11 0 ++ [1]))
              (vecEnc [5])
          ++ (leBytes 11 0 ++ [1])) = .ok [5] ∧
      (SessionKey.server_derive ⟨2, 3⟩ (pubSeedOf ⟨0, 1⟩)).unseal vecCodec
        (SealedPacket.mk ⟨10, 20, 30, 2⟩ ⟨10, 20, 30, 7⟩ []
          ).addresses_as_bytes
        (vecEnc [5]
          ++ mkTag (derive 0 2) (leBytes 11 0 ++ [1])
              ([10, 20, 30, 2, 10, 20, 30, 3] ++ (leBytes 11 0 ++ [1]))
              (vecEnc [5])
          ++ (leBytes 11 0 ++ [1])) = .err .brokenMessage) := by
  have hs : (SessionKey.client_derive ⟨0, 1⟩ (pubSeedOf ⟨2, 3⟩)).seal vecCodec
      (SealedPacket.mk ⟨10, 20, 30, 2⟩ ⟨10, 20, 30, 3⟩ []
        ).addresses_as_bytes [5]
      = .ok (vecEnc [5]
          ++ mkTag (derive 0 2) (leBytes 11 0 ++ [1])
              ([10, 20, 30, 2, 10, 20, 30, 3] ++ (leBytes 11 0 ++ [1]))
              (vecEnc [5])
          ++ (leBytes 11 0 ++ [1]),
          ({ opening := derive 1 3, sealing := derive 0 2,
             nonce_seq := { id := 1, next := 1 } } : SessionKey)) := by
    decide
  have hmain := C2_aad_binds_addresses vecCodec
    (SessionKey.client_derive ⟨0, 1⟩ (pubSeedOf ⟨2, 3⟩))
    (SessionKey.server_derive ⟨2, 3⟩ (pubSeedOf ⟨0, 1⟩))
    (by decide)
    (SealedPacket.mk ⟨10, 20, 30, 2⟩ ⟨10, 20, 30, 3⟩ [])
    (SealedPacket.mk ⟨10, 20, 30, 2⟩ ⟨10, 20, 30, 7⟩ [])
    [5] (by norm_num [vecCodec]) _ _ hs (by decide)
  exact ⟨by decide, hs, hmain.2.2.2.1, hmain.2.2.2.2⟩

/-- C5: for a received `Hello`: an undeclared peer is dropped with no table
change and no reply; a signature failure on the seed is dropped with no
table change and no reply; a verified seed unconditionally replaces the
entry for `addr` — even when one already exists — with the outer source
address and a freshly derived server-role session key, and a server-signed
`HelloReply` is sent to the outer source address. -/
theorem C5_hello_establishment (cfgPeers : List PeerConfig)
    (fs : Nat → Except Nat Nat) (skp : StaticKeyPair) (fresh : PrivSeed)
    (peers : PeerTable) (addr : Ipv4) (seed : Signed PubSeed) (src : Nat) :
    (cfgPeers.find? (fun conf => decide (conf.address = addr)) = none →
      helloStep cfgPeers fs skp fresh peers addr seed src = .dropNoReply) ∧
    (∀ conf pubkey e,
      cfgPeers.find? (fun conf => decide (conf.address = addr)) = some conf →
      fs conf.public_key = .ok pubkey →
      seed.openMsg pubSeedCodec pubkey = .error e →
      helloStep cfgPeers fs skp fresh peers addr seed src = .dropNoReply) ∧
    (∀ conf pubkey client_seed,
      cfgPeers.find? (fun conf => decide (conf.address = addr)) = some conf →
      fs conf.public_key = .ok pubkey →
      seed.openMsg pubSeedCodec pubkey = .ok client_seed →
      helloStep cfgPeers fs skp fresh peers addr seed src
        = .established
            (tableInsert peers addr
              { sock_addr := src,
                session_key := SessionKey.server_derive fresh client_seed })
            (skp.sign pubSeedCodec (pubSeedOf fresh)) src ∧
      tableGet
          (tableInsert peers addr
            { sock_addr := src,
              session_key := SessionKey.server_derive fresh client_seed })
          addr
        = some { sock_addr := src,
                 session_key := SessionKey.server_derive fresh client_seed }) := by
  refine ⟨?_, ?_, ?_⟩
  · intro hfind
    unfold helloStep
    rw [hfind]
  · intro conf pubkey e hfind hfs hopen
    unfold helloStep
    rw [hfind]
    dsimp only
    rw [hfs]
    dsimp only
    rw [hopen]
  · intro conf pubkey client_seed hfind hfs hopen
    constructor
    · unfold helloStep
      rw [hfind]
      dsimp only
      rw [hfs]
      dsimp only
      rw [hopen]
    · exact tableGet_insert_same peers addr _

/-- Witness for C5: a two-peer config where the Hello's declared address is
configured, the key file reads fine and the seed verifies, so the (already
occupied) entry is replaced and a reply is produced. -/
theorem C5_hello_establishment_witness :
    (([{ address := ⟨10, 20, 30, 2⟩, public_key := 7 }]
        : List PeerConfig).find?
        (fun conf => decide (conf.address = (⟨10, 20, 30, 2⟩ : Ipv4)))
      = some { address := ⟨10, 20, 30, 2⟩, public_key := 7 }) ∧
    ((fun _ => Except.ok (edPub 5) : Nat → Except Nat Nat) 7
      = .ok (edPub 5)) ∧
    (((StaticKeyPair.mk 5).sign pubSeedCodec
        (pubSeedOf ⟨40, 41⟩)).openMsg pubSeedCodec (edPub 5)
      = .ok (pubSeedOf ⟨40, 41⟩)) ∧
    (helloStep [{ address := ⟨10, 20, 30, 2⟩, public_key := 7 }]
        (fun _ => Except.ok (edPub 5)) (StaticKeyPair.mk 9) ⟨50, 51⟩
        [((⟨10, 20, 30, 2⟩ : Ipv4),
          { sock_addr := 77,
            session_key :=
              { opening := 0, sealing := 0, nonce_seq := NonceSeq.new 2 } })]
        ⟨10, 20, 30, 2⟩
        ((StaticKeyPair.mk 5).sign pubSeedCodec (pubSeedOf ⟨40, 41⟩)) 88
        = .established
            (tableInsert
              [((⟨10, 20, 30, 2⟩ : Ipv4),
                { sock_addr := 77,
                  session_key :=
                    { opening := 0, sealing := 0,
                      nonce_seq := NonceSeq.new 2 } })]
              ⟨10, 20, 30, 2⟩
              { sock_addr := 88,
                session_key :=
                  SessionKey.server_derive ⟨50, 51⟩ (pubSeedOf ⟨40, 41⟩) })
            ((StaticKeyPair.mk 9).sign pubSeedCodec (pubSeedOf ⟨50, 51⟩)) 88 ∧
      tableGet
          (tableInsert
            [((⟨10, 20, 30, 2⟩ : Ipv4),
              { sock_addr := 77,
                session_key :=
                  { opening := 0, sealing := 0,
                    nonce_seq := NonceSeq.new 2 } })]
            ⟨10, 20, 30, 2⟩
            { sock_addr := 88,
              session_key :=
                SessionKey.server_derive ⟨50, 51⟩ (pubSeedOf ⟨40, 41⟩) })
          ⟨10, 20, 30, 2⟩
        = some { sock_addr := 88,
                 session_key :=
                   SessionKey.server_derive ⟨50, 51⟩ (pubSeedOf ⟨40, 41⟩) }) :=
  ⟨by decide, rfl, rfl,
    (C5_hello_establishment
        [{ address := ⟨10, 20, 30, 2⟩, public_key := 7 }]
        (fun _ => Except.ok (edPub 5)) (StaticKeyPair.mk 9) ⟨50, 51⟩
        [((⟨10, 20, 30, 2⟩ : Ipv4),
          { sock_addr := 77,
            session_key :=
              { opening := 0, sealing := 0, nonce_seq := NonceSeq.new 2 } })]
        ⟨10, 20, 30, 2⟩
        ((StaticKeyPair.mk 5).sign pubSeedCodec (pubSeedOf ⟨40, 41⟩)) 88).2.2
      { address := ⟨10, 20, 30, 2⟩, public_key := 7 } (edPub 5)
      (pubSeedOf ⟨40, 41⟩) (by decide) rfl rfl⟩

/-- C10: in the Hello arm, a failing public-key file read is propagated by
`?` out of the worker closure (terminating the UDP-inbound worker), while
the unknown-peer and invalid-signature failures just continue the loop; and
an `ioFailure` outcome can arise from nothing else. -/
theorem C10_hello_keyfile_io (cfgPeers : List PeerConfig)
    (fs : Nat → Except Nat Nat) (skp : StaticKeyPair) (fresh : PrivSeed)
    (peers : PeerTable) (addr : Ipv4) (seed : Signed PubSeed) (src : Nat) :
    (∀ conf e,
      cfgPeers.find? (fun conf => decide (conf.address = addr)) = some conf →
      fs conf.public_key = .error e →
      helloStep cfgPeers fs skp fresh peers addr seed src = .ioFailure e) ∧
    (cfgPeers.find? (fun conf => decide (conf.address = addr)) = none →
      helloStep cfgPeers fs skp fresh peers addr seed src = .dropNoReply) ∧
    (∀ conf pubkey e,
      cfgPeers.find? (fun conf => decide (conf.address = addr)) = some conf →
      fs conf.public_key = .ok pubkey →
      seed.openMsg pubSeedCodec pubkey = .error e →
      helloStep cfgPeers fs skp fresh peers addr seed src = .dropNoReply) ∧
    (∀ e, helloStep cfgPeers fs skp fresh peers addr seed src = .ioFailure e →
      ∃ conf,
        cfgPeers.find? (fun conf => decide (conf.address = addr))
          = some conf ∧
        fs conf.public_key = .error e) := by
  refine ⟨?_, ?_, ?_, ?_⟩
  · intro conf e hfind hfs
    unfold helloStep
    rw [hfind]
    dsimp only
    rw [hfs]
  · intro hfind
    unfold helloStep
    rw [hfind]
  · intro conf pubkey e hfind hfs hopen
    unfold helloStep
    rw [hfind]
    dsimp only
    rw [hfs]
    dsimp only
    rw [hopen]
  · intro e hout
    unfold helloStep at hout
    rcases hfind : cfgPeers.find?
        (fun conf => decide (conf.address = addr)) with - | conf
    · rw [hfind] at hout
      exact absurd hout (by simp)
    · rw [hfind] at hout
      dsimp only at hout
      rcases hfs : fs conf.public_key with e' | pubkey
      · rw [hfs] at hout
        dsimp only at hout
        rw [HelloOutcome.ioFailure.injEq] at hout
        exact ⟨conf, hfind, by rw [hfs, hout]⟩
      · rw [hfs] at hout
        dsimp only at hout
        rcases hopen : seed.openMsg pubSeedCodec pubkey with e'' | cs
        · rw [hopen] at hout
          exact absurd hout (by simp)
        · rw [hopen] at hout
          exact absurd hout (by simp)

/-- Witness for C10: a configured peer whose key file read fails with error
code 13 makes the Hello arm propagate the I/O error. -/
theorem C10_hello_keyfile_io_witness :
    (([{ address := ⟨10, 20, 30, 2⟩, public_key := 7 }]
        : List PeerConfig).find?
        (fun conf => decide (conf.address = (⟨10, 20, 30, 2⟩ : Ipv4)))
      = some { address := ⟨10, 20, 30, 2⟩, public_key := 7 }) ∧
    ((fun _ => Except.error 13 : Nat → Except Nat Nat) 7
      = Except.error 13) ∧
    helloStep [{ address := ⟨10, 20, 30, 2⟩, public_key := 7 }]
        (fun _ => Except.error 13) (StaticKeyPair.mk 9) ⟨50, 51⟩ []
        ⟨10, 20, 30, 2⟩
        ((StaticKeyPair.mk 5).sign pubSeedCodec (pubSeedOf ⟨40, 41⟩)) 88
      = .ioFailure 13 :=
  ⟨by decide, rfl,
    (C10_hello_keyfile_io [{ address := ⟨10, 20, 30, 2⟩, public_key := 7 }]
        (fun _ => Except.error 13) (StaticKeyPair.mk 9) ⟨50, 51⟩ []
        ⟨10, 20, 30, 2⟩
        ((StaticKeyPair.mk 5).sign pubSeedCodec (pubSeedOf ⟨40, 41⟩)) 88).1
      { address := ⟨10, 20, 30, 2⟩, public_key := 7 } 13
      (by decide) rfl⟩

/-- C6: for a `Packet` whose sender session exists and whose content
unseals and parses as IPv4: if the inner destination is the server's own
VPN address the plaintext goes to the TUN device; otherwise, with a peer
entry for the inner destination, the same plaintext bytes are re-sealed
with that peer's session key under the inner source/destination AAD and
sent to that peer's recorded outer socket address — so a receiver holding
the matching opening key recovers the plaintext bit-for-bit; with no entry
the packet is dropped and nothing is sent. -/
theorem C6_packet_forwarding (serverAddr : Ipv4) (peers : PeerTable)
    (sealed : SealedPacket) (peerA : Peer) (pt : List Nat) (src dst : Ipv4)
    (hga : tableGet peers sealed.source = some peerA)
    (hun : peerA.session_key.unseal vecCodec sealed.addresses_as_bytes
        sealed.content = .ok pt)
    (hp : parseIpv4 pt = some (src, dst)) :
    (dst = serverAddr → packetStep serverAddr peers sealed = .tun pt) ∧
    (dst ≠ serverAddr → tableGet peers dst = none →
      packetStep serverAddr peers sealed = .dropped) ∧
    (∀ peerB ct key', dst ≠ serverAddr → tableGet peers dst = some peerB →
      peerB.session_key.seal vecCodec
          (SealedPacket.mk src dst []).addresses_as_bytes pt
        = .ok (ct, key') →
      packetStep serverAddr peers sealed
        = .forward (SealedPacket.mk src dst ct) peerB.sock_addr
            (tableInsert peers dst { peerB with session_key := key' }) ∧
      (∀ k2 : SessionKey, k2.opening = peerB.session_key.sealing →
        k2.unseal vecCodec (SealedPacket.mk src dst ct).addresses_as_bytes ct
          = .ok pt)) := by
  refine ⟨?_, ?_, ?_⟩
  · intro hd
    unfold packetStep
    rw [hga]
    dsimp only
    rw [hun]
    dsimp only
    rw [hp]
    dsimp only
    rw [if_pos hd]
  · intro hd hgb
    unfold packetStep
    rw [hga]
    dsimp only
    rw [hun]
    dsimp only
    rw [hp]
    dsimp only
    rw [if_neg hd]
    rw [hgb]
  · intro peerB ct key' hd hgb hseal
    constructor
    · unfold packetStep
      rw [hga]
      dsimp only
      rw [hun]
      dsimp only
      rw [hp]
      dsimp only
      rw [if_neg hd]
      rw [hgb]
      dsimp only
      rw [hseal]
    · intro k2 hk2
      have hvalid : vecCodec.valid pt := unseal_ok_valid hun
      exact (unseal_of_seal vecCodec peerB.session_key k2 hk2
        (SealedPacket.mk src dst []).addresses_as_bytes []
        pt hvalid ct key' hseal).1

/-- Witness for C6: peer A's packet for peer B is decrypted with A's
session, re-sealed with B's session and forwarded to B's socket, and B-side
unsealing recovers the identical plaintext. -/
theorem C6_packet_forwarding_witness :
    (tableGet
        [((⟨1, 0, 0, 0⟩ : Ipv4),
          ({ sock_addr := 77,
             session_key := SessionKey.server_derive ⟨2, 3⟩ (pubSeedOf ⟨0, 1⟩)
           } : Peer)),
         ((⟨2, 0, 0, 0⟩ : Ipv4),
          ({ sock_addr := 99,
             session_key := SessionKey.server_derive ⟨6, 7⟩ (pubSeedOf ⟨4, 5⟩)
           } : Peer))]
        (⟨1, 0, 0, 0⟩ : Ipv4)
      = some ({ sock_addr := 77,
                session_key :=
                  SessionKey.server_derive ⟨2, 3⟩ (pubSeedOf ⟨0, 1⟩) }
          : Peer)) ∧
    packetStep ⟨9, 9, 9, 9⟩
        [((⟨1, 0, 0, 0⟩ : Ipv4),
          ({ sock_addr := 77,
             session_key := SessionKey.server_derive ⟨2, 3⟩ (pubSeedOf ⟨0, 1⟩)
           } : Peer)),
         ((⟨2, 0, 0, 0⟩ : Ipv4),
          ({ sock_addr := 99,
             session_key := SessionKey.server_derive ⟨6, 7⟩ (pubSeedOf ⟨4, 5⟩)
           } : Peer))]
        (SealedPacket.mk ⟨1, 0, 0, 0⟩ ⟨2, 0, 0, 0⟩
          (vecEnc [69, 0, 0, 0, 0, 0, 0, 0, 0, 0, 0, 0, 1, 0, 0, 0, 2, 0, 0, 0]
            ++ mkTag (derive 0 2) (leBytes 11 0 ++ [1])
                ([1, 0, 0, 0, 2, 0, 0, 0] ++ (leBytes 11 0 ++ [1]))
                (vecEnc
                  [69, 0, 0, 0, 0, 0, 0, 0, 0, 0, 0, 0, 1, 0, 0, 0, 2, 0, 0, 0])
            ++ (leBytes 11 0 ++ [1])))
      = .forward
          (SealedPacket.mk ⟨1, 0, 0, 0⟩ ⟨2, 0, 0, 0⟩
            (vecEnc
                [69, 0, 0, 0, 0, 0, 0, 0, 0, 0, 0, 0, 1, 0, 0, 0, 2, 0, 0, 0]
              ++ mkTag (derive 7 5) (leBytes 11 0 ++ [2])
                  ([1, 0, 0, 0, 2, 0, 0, 0] ++ (leBytes 11 0 ++ [2]))
                  (vecEnc
                    [69, 0, 0, 0, 0, 0, 0, 0, 0, 0, 0, 0, 1, 0, 0, 0, 2, 0,
                      0, 0])
              ++ (leBytes 11 0 ++ [2])))
          99
          (tableInsert
            [((⟨1, 0, 0, 0⟩ : Ipv4),
              ({ sock_addr := 77,
                 session_key :=
                   SessionKey.server_derive ⟨2, 3⟩ (pubSeedOf ⟨0, 1⟩)
               } : Peer)),
             ((⟨2, 0, 0, 0⟩ : Ipv4),
              ({ sock_addr := 99,
                 session_key :=
                   SessionKey.server_derive ⟨6, 7⟩ (pubSeedOf ⟨4, 5⟩)
               } : Peer))]
            ⟨2, 0, 0, 0⟩
            ({ sock_addr := 99,
               session_key :=
                 ({ opening := derive 6 4, sealing := derive 7 5,
                    nonce_seq := { id := 2, next := 1 } } : SessionKey)
             } : Peer)) ∧
    (SessionKey.client_derive ⟨4, 5⟩ (pubSeedOf ⟨6, 7⟩)).unseal vecCodec
        (SealedPacket.mk (⟨1, 0, 0, 0⟩ : Ipv4) (⟨2, 0, 0, 0⟩ : Ipv4)
          []).addresses_as_bytes
        (vecEnc [69, 0, 0, 0, 0, 0, 0, 0, 0, 0, 0, 0, 1, 0, 0, 0, 2, 0, 0, 0]
          ++ mkTag (derive 7 5) (leBytes 11 0 ++ [2])
              ([1, 0, 0, 0, 2, 0, 0, 0] ++ (leBytes 11 0 ++ [2]))
              (vecEnc
                [69, 0, 0, 0, 0, 0, 0, 0, 0, 0, 0, 0, 1, 0, 0, 0, 2, 0, 0, 0])
          ++ (leBytes 11 0 ++ [2]))
      = .ok [69, 0, 0, 0, 0, 0, 0, 0, 0, 0, 0, 0, 1, 0, 0, 0, 2, 0, 0, 0] := by
  have hmain := C6_packet_forwarding ⟨9, 9, 9, 9⟩
    [((⟨1, 0, 0, 0⟩ : Ipv4),
      ({ sock_addr := 77,
         session_key := SessionKey.server_derive ⟨2, 3⟩ (pubSeedOf ⟨0, 1⟩)
       } : Peer)),
     ((⟨2, 0, 0, 0⟩ : Ipv4),
      ({ sock_addr := 99,
         session_key := SessionKey.server_derive ⟨6, 7⟩ (pubSeedOf ⟨4, 5⟩)
       } : Peer))]
    (SealedPacket.mk ⟨1, 0, 0, 0⟩ ⟨2, 0, 0, 0⟩
      (vecEnc [69, 0, 0, 0, 0, 0, 0, 0, 0, 0, 0, 0, 1, 0, 0, 0, 2, 0, 0, 0]
        ++ mkTag (derive 0 2) (leBytes 11 0 ++ [1])
            ([1, 0, 0, 0, 2, 0, 0, 0] ++ (leBytes 11 0 ++ [1]))
            (vecEnc
              [69, 0, 0, 0, 0, 0, 0, 0, 0, 0, 0, 0, 1, 0, 0, 0, 2, 0, 0, 0])
        ++ (leBytes 11 0 ++ [1])))
    ({ sock_addr := 77,
       session_key := SessionKey.server_derive ⟨2, 3⟩ (pubSeedOf ⟨0, 1⟩)
     } : Peer)
    [69, 0, 0, 0, 0, 0, 0, 0, 0, 0, 0, 0, 1, 0, 0, 0, 2, 0, 0, 0]
    ⟨1, 0, 0, 0⟩ ⟨2, 0, 0, 0⟩ (by decide) (by decide) (by decide)
  have hfwd := (hmain.2.2
    ({ sock_addr := 99,
       session_key := SessionKey.server_derive ⟨6, 7⟩ (pubSeedOf ⟨4, 5⟩)
     } : Peer)
    (vecEnc [69, 0, 0, 0, 0, 0, 0, 0, 0, 0, 0, 0, 1, 0, 0, 0, 2, 0, 0, 0]
      ++ mkTag (derive 7 5) (leBytes 11 0 ++ [2])
          ([1, 0, 0, 0, 2, 0, 0, 0] ++ (leBytes 11 0 ++ [2]))
          (vecEnc
            [69, 0, 0, 0, 0, 0, 0, 0, 0, 0, 0, 0, 1, 0, 0, 0, 2, 0, 0, 0])
      ++ (leBytes 11 0 ++ [2]))
    ({ opening := derive 6 4, sealing := derive 7 5,
       nonce_seq := { id := 2, next := 1 } } : SessionKey)
    (by decide) (by decide) (by decide))
  exact ⟨by decide, hfwd.1,
    hfwd.2 (SessionKey.client_derive ⟨4, 5⟩ (pubSeedOf ⟨6, 7⟩)) (by decide)⟩

end PMV
